import Mathlib

/-!
Verification of the domhunter core pipeline.

Shallow embedding of the per-domain pipeline, the batch orchestrator
(`src/domhunter/pipeline.py`), the Wayback snapshot merger and downloader
(`src/domhunter/providers/wayback_wbp.py`), the legacy provider module
(`src/providers/wayback.py`), and the input reader
(`src/domhunter/utils.py`).

Python strings are embedded as Lean `String`; the string operations the
source relies on (`in`, `startswith`, `endswith`, `replace`, lexicographic
comparison) are re-implemented by structural recursion on `String.data`
with Python's code-point semantics, so that every definition evaluates
inside the kernel.
-/

namespace DomHunter

/-- Lexicographic code-point comparison of character lists: the ordering
Python uses when comparing `str` values (`sorted`, `list.sort`). -/
def charsLe : List Char → List Char → Bool
  | [], _ => true
  | _ :: _, [] => false
  | a :: as, b :: bs => if a < b then true else if b < a then false else charsLe as bs

/-- Python `a <= b` on strings: lexicographic by code point. -/
def strLe (a b : String) : Bool := charsLe a.data b.data

/-- Python `pat in s` on character lists: some position starts with `pat`. -/
def subAt (pat : List Char) : List Char → Bool
  | [] => pat.isEmpty
  | a :: l => pat.isPrefixOf (a :: l) || subAt pat l

/-- Python `pat in s` on strings. -/
def strContainsSub (s pat : String) : Bool := subAt pat.data s.data

/-- Python `s.startswith(pat)`. -/
def strStarts (s pat : String) : Bool := pat.data.isPrefixOf s.data

/-- Python `s.endswith(pat)`. -/
def strEnds (s pat : String) : Bool := pat.data.isSuffixOf s.data

/-- Fuel-driven replacement of every occurrence of `pat` by `repl`,
scanning left to right (Python `s.replace(pat, repl)` for a non-empty
`pat`).  The fuel is the length of the scanned list, which bounds the
number of scan steps; it keeps the recursion structural so the kernel can
evaluate it. -/
def replaceFuel (pat repl : List Char) : Nat → List Char → List Char
  | 0, l => l
  | _ + 1, [] => []
  | fuel + 1, a :: l =>
    if pat.isPrefixOf (a :: l) then repl ++ replaceFuel pat repl fuel ((a :: l).drop pat.length)
    else a :: replaceFuel pat repl fuel l

/-- Python `s.replace(pat, repl)`. -/
def strReplace (s pat repl : String) : String :=
  ⟨replaceFuel pat.data repl.data s.data.length s.data⟩

/-- Stable insertion of `a` into `l`: `a` goes before the first `b` with
`le a b`.  Earlier-input elements stay in front of later ties. -/
def insertStable {α : Type} (le : α → α → Bool) (a : α) : List α → List α
  | [] => [a]
  | b :: l => if le a b then a :: b :: l else b :: insertStable le a l

/-- Stable insertion sort.  Python's `list.sort` is a stable sort; for a
total preorder a stable sort's output is unique, so insertion sort is an
exact model of it. -/
def stableSort {α : Type} (le : α → α → Bool) : List α → List α
  | [] => []
  | a :: l => insertStable le a (stableSort le l)

/-- First-seen-wins deduplication by a key function, with an accumulator of
keys already seen: the `seen`/append loop of `_merge_and_dedupe`
(wayback_wbp.py lines 130-138) and of the legacy `list_snapshots`
(providers/wayback.py lines 39-44). -/
def dedupeByKey {α κ : Type} [DecidableEq κ] (key : α → κ) (seen : List κ) :
    List α → List α
  | [] => []
  | a :: l =>
    if key a ∈ seen then dedupeByKey key seen l
    else a :: dedupeByKey key (key a :: seen) l

/-! ## Data model (`src/domhunter/models.py`) -/

/-- DomainResult dataclass (models.py lines 6-16), with its field defaults. -/
structure DomainResult where
  domain : String
  available : Option Bool := none
  indexed_google : Option Bool := none
  wayback_screenshots : Nat := 0
  wayback_html_pages : Nat := 0
  notes : String := ""
deriving DecidableEq

/-! ## Wayback snapshot merger (`src/domhunter/providers/wayback_wbp.py`) -/

/-- SnapshotItem dataclass (wayback_wbp.py lines 22-28). -/
structure SnapshotItem where
  timestamp : String
  original : String
  archive_url : String
  statuscode : Option String := none
  mimetype : Option String := none
deriving DecidableEq

/-- `_normalize_original` (wayback_wbp.py lines 34-38): strips the
standard `:80/` suffix Wayback sometimes returns on http originals.
Python's `str.replace` replaces every occurrence. -/
def normalize_original (original : String) : String :=
  if strStarts original "http://" && strEnds original ":80/" then
    strReplace original ":80/" "/"
  else original

/-- Identity key of a snapshot: the `(s.timestamp, s.original)` pair used
by the dedupe loops. -/
def snapKey (s : SnapshotItem) : String × String := (s.timestamp, s.original)

/-- Descending-timestamp comparator: `merged.sort(key=lambda x:
x.timestamp, reverse=True)` sorts stably with `a` before `b` exactly when
`b.timestamp <= a.timestamp`, ties keeping insertion order. -/
def snapDescLe (a b : SnapshotItem) : Bool := strLe b.timestamp a.timestamp

/-- `_merge_and_dedupe` (wayback_wbp.py lines 130-141): iterate the lists
in order, keep the first item seen for each `(timestamp, original)` key,
then stable-sort descending by timestamp. -/
def merge_and_dedupe (lists : List (List SnapshotItem)) : List SnapshotItem :=
  stableSort snapDescLe (dedupeByKey snapKey [] lists.flatten)

/-- The per-variant fetches that completed without raising, in completion
order: the `as_completed` loop of `list_snapshots` (wayback_wbp.py lines
189-195) appends each awaited partial and drops failures. -/
def collectParts (outcomes : List (Except String (List SnapshotItem))) :
    List (List SnapshotItem) :=
  outcomes.filterMap Except.toOption

/-- `list_snapshots` (wayback_wbp.py lines 147-203), as a function of the
four variant fetch outcomes in completion order: drop failed variants,
merge and dedupe, truncate to `limit` when longer, and project each item
to its `(timestamp, original)` pair. -/
def wbp_list_snapshots (outcomes : List (Except String (List SnapshotItem)))
    (limit : Nat) : List (String × String) :=
  let merged := merge_and_dedupe (collectParts outcomes)
  let merged := if limit < merged.length then merged.take limit else merged
  merged.map snapKey

/-! ## Wayback HTML downloader (`src/domhunter/providers/wayback_wbp.py`) -/

/-- Outcome of one `client.get` inside the downloader's `try` block:
either an HTTP response (status, content-type header, body text) or an
exception carrying a message.  The exception case also stands for a write
failure inside the same `try`. -/
inductive FetchOutcome where
  | response (status : Nat) (contentType : String) (body : String)
  | exc (msg : String)

/-- One entry of the `manifest` list built by `download_screenshots`
(wayback_wbp.py lines 237-291): the fields that appear in at least one of
the three entry shapes (skipped / saved / not saved), absent dict keys
rendered as `none` or `false`. -/
structure ManifestEntry where
  timestamp : String
  original : String
  archive_url : String
  saved : Option String
  skipped : Bool := false
  status : Option Nat := none
  content_type : Option String := none
  error : Option String := none
deriving DecidableEq

/-- Accumulated loop state of `download_screenshots`: the `saved` counter,
the `manifest` list, and the HTML files written so far as
(filename, content) pairs. -/
structure DownloadState where
  saved : Nat := 0
  manifest : List ManifestEntry := []
  files : List (String × String) := []
deriving DecidableEq

/-- The success test of wayback_wbp.py line 257:
`resp.status_code == 200 and "text/html" in ctype`. -/
def htmlOk : FetchOutcome → Bool
  | .response status ctype _ => status == 200 && strContainsSub ctype "text/html"
  | .exc _ => false

/-- One iteration of the `download_screenshots` loop (wayback_wbp.py
lines 229-294).  `fetch` maps an archive URL to the outcome of the
`client.get` for it; `existing` is the set of file names already present
in the output directory before the call, and the `target_file.exists()`
test also sees files written by earlier iterations, which are threaded
through the state. -/
def download_step (fetch : String → FetchOutcome) (overwrite : Bool)
    (existing : List String) (st : DownloadState) (snap : String × String) :
    DownloadState :=
  let ts := snap.1
  let original_norm := normalize_original snap.2
  let archive_url := "https://web.archive.org/web/" ++ ts ++ "/" ++ original_norm
  let fname := ts ++ ".html"
  if (existing.contains fname || (st.files.map Prod.fst).contains fname) && !overwrite then
    { st with manifest := st.manifest ++
        [{ timestamp := ts, original := original_norm, archive_url := archive_url,
           saved := some fname, skipped := true }] }
  else
    match fetch archive_url with
    | .response status ctype body =>
      if status == 200 && strContainsSub ctype "text/html" then
        { saved := st.saved + 1,
          manifest := st.manifest ++
            [{ timestamp := ts, original := original_norm, archive_url := archive_url,
               saved := some fname, status := some status, content_type := some ctype }],
          files := st.files ++ [(fname, body)] }
      else
        { st with manifest := st.manifest ++
            [{ timestamp := ts, original := original_norm, archive_url := archive_url,
               saved := none, status := some status, content_type := some ctype }] }
    | .exc msg =>
      { st with manifest := st.manifest ++
          [{ timestamp := ts, original := original_norm, archive_url := archive_url,
             saved := none, error := some msg }] }

/-- The `download_screenshots` loop over the truncated snapshot list. -/
def download_loop (fetch : String → FetchOutcome) (overwrite : Bool)
    (existing : List String) : List (String × String) → DownloadState → DownloadState
  | [], st => st
  | snap :: rest, st =>
    download_loop fetch overwrite existing rest (download_step fetch overwrite existing st snap)

/-- `download_screenshots` (wayback_wbp.py lines 206-304): process the
first `max_count` snapshots; return the saved counter together with the
manifest and the files written (the Python function returns `saved` and
writes the manifest file when the list is non-empty). -/
def download_screenshots (fetch : String → FetchOutcome) (existing : List String)
    (snapshots : List (String × String)) (max_count : Nat) (overwrite : Bool) :
    DownloadState :=
  download_loop fetch overwrite existing (snapshots.take max_count) {}

/-! ## Per-domain pipeline (`src/domhunter/pipeline.py`) -/

/-- Outcomes of the external calls one `process_domain` invocation makes.
`check_availability` and `is_indexed` never raise (both providers catch
every exception and return `None`), so they are plain tri-state values;
the archive stage (`list_snapshots` / `download_screenshots`) runs inside
the `try` of pipeline.py lines 37-44, so each is an `Except`. -/
structure Providers where
  availability : Option Bool
  indexed : Option Bool
  snapshots : Except String (List (String × String))
  download : List (String × String) → Except String Nat

/-- Observable side effects of one `process_domain` call: whether the
archive listing was reached, and whether `download_screenshots` was called
(which is the only place the per-domain subdirectory is created, via
`out_dir.mkdir` at wayback_wbp.py line 221). -/
structure ProcEffects where
  listedSnapshots : Bool
  downloadCalled : Bool
deriving DecidableEq

/-- `process_domain` (pipeline.py lines 15-46): the strict short-circuit
chain.  Returns the `DomainResult` (the dataclass mutated in place in the
source) together with the effects record. -/
def process_domain (domain : String) (p : Providers) : DomainResult × ProcEffects :=
  let res : DomainResult := { domain := domain }
  let res := { res with available := p.availability }
  if p.availability ≠ some true then (res, ⟨false, false⟩)
  else
    let res := { res with indexed_google := p.indexed }
    if p.indexed ≠ some true then (res, ⟨false, false⟩)
    else
      match p.snapshots with
      | .error e => ({ res with notes := res.notes ++ ("Wayback error: " ++ e) }, ⟨true, false⟩)
      | .ok snaps =>
        if snaps.isEmpty then (res, ⟨true, false⟩)
        else
          match p.download snaps with
          | .ok n => ({ res with wayback_screenshots := n }, ⟨true, true⟩)
          | .error e =>
            ({ res with notes := res.notes ++ ("Wayback error: " ++ e) }, ⟨true, true⟩)

/-- `run` (pipeline.py lines 49-70): one task per domain, collected with
`asyncio.gather`, which returns the awaited results in the order the
coroutines were passed, not in completion order.  The output writers
(`write_json` / `write_csv`) are excluded collaborators and not modelled;
`provs` gives the external-call outcomes for each domain. -/
def run (domains : List String) (provs : String → Providers) : List DomainResult :=
  domains.map (fun d => (process_domain d (provs d)).1)

/-! ## Legacy provider module (`src/providers/wayback.py`) -/

/-- Legacy `list_snapshots` (providers/wayback.py lines 6-46), as a
function of the four per-base CDX responses in base order (the loop is
sequential): a failed base is skipped, each successful response
contributes its parsed `(timestamp, original)` rows, then first-seen
dedupe and a stable descending sort by timestamp.  The `limit` argument is
only forwarded to the server as a query parameter; the function never
truncates locally. -/
def legacy_list_snapshots (responses : List (Except String (List (String × String))))
    (limit : Nat) : List (String × String) :=
  let _ := limit
  let rows := (responses.filterMap Except.toOption).flatten
  stableSort (fun a b : String × String => strLe b.1 a.1)
    (dedupeByKey (fun r : String × String => r) [] rows)

/-- Legacy `download_screenshots` (providers/wayback.py lines 49-67):
fetches `/__wb/screenshot/` URLs, saves when the status is 200 and the
content type starts with `image/`, chooses `.png` or `.jpg` from the
content type, swallows exceptions, and keeps no manifest.  Returns the
saved counter and the files written. -/
def legacy_download_screenshots (fetch : String → FetchOutcome)
    (snapshots : List (String × String)) (max_count : Nat) : Nat × List (String × String) :=
  (snapshots.take max_count).foldl
    (fun acc r =>
      let shot_url := "https://web.archive.org/__wb/screenshot/" ++ r.1 ++ "/" ++ r.2
      match fetch shot_url with
      | .response status ctype body =>
        if status == 200 && strStarts ctype "image/" then
          let ext := if strContainsSub ctype "png" then ".png" else ".jpg"
          (acc.1 + 1, acc.2 ++ [(r.1 ++ ext, body)])
        else acc
      | .exc _ => acc)
    (0, [])

/-! ## Input reader (`src/domhunter/utils.py`) -/

/-- `read_domains_file` (utils.py lines 27-33), parameterised by
`normalize_domain` (utils.py lines 10-24, an excluded textual collaborator
built on regex and IDNA encoding): keep the lines `normalize` accepts
(it never returns an empty string, and the Python truthiness test also
drops one), then `sorted(set(items))` — the distinct surviving domains in
ascending lexicographic order, modelled as first-seen dedupe followed by a
stable ascending sort. -/
def read_domains_file (normalize : String → Option String) (lines : List String) :
    List String :=
  let items := (lines.filterMap normalize).filter (fun n => n ≠ "")
  stableSort strLe (dedupeByKey (fun s : String => s) [] items)

/-! ## Concurrency gate (`src/domhunter/pipeline.py` lines 21-65)

The semaphore is modelled as an interleaving transition system: one task
per domain, each task a list of pending actions, a counter of free slots.
`async with semaphore` acquires one slot on entry and releases it on every
exit of the block, including the early `return` statements. -/

/-- Micro-actions of one domain task: semaphore acquisition and release,
and the awaited provider calls in between. -/
inductive GateAction where
  | acquire
  | release
  | work
deriving DecidableEq

/-- The awaited provider calls one `process_domain` invocation performs
while holding its slot: the availability call, then (short-circuits
permitting) the indexation call, the snapshot listing, and the download. -/
def processWork (p : Providers) : List GateAction :=
  GateAction.work ::
    (if p.availability ≠ some true then []
     else GateAction.work ::
       (if p.indexed ≠ some true then []
        else GateAction.work ::
          (match p.snapshots with
           | .error _ => []
           | .ok snaps => if snaps.isEmpty then [] else [GateAction.work])))

/-- The action trace of one `process_domain` invocation: `async with
semaphore` acquires first and releases on every exit path, with the
provider calls in between. -/
def processTrace (p : Providers) : List GateAction :=
  GateAction.acquire :: (processWork p ++ [GateAction.release])

/-- Scheduler state: free semaphore slots and the remaining trace of every
task. -/
structure Sched where
  free : Nat
  tasks : List (List GateAction)

/-- One interleaving step: some task performs its next action.  Acquiring
requires a free slot (the task suspends otherwise); releasing returns the
slot. -/
inductive SchedStep : Sched → Sched → Prop
  | acquire (free : Nat) (pre post : List (List GateAction)) (rest : List GateAction)
      (hfree : 0 < free) :
      SchedStep ⟨free, pre ++ (GateAction.acquire :: rest) :: post⟩
        ⟨free - 1, pre ++ rest :: post⟩
  | work (free : Nat) (pre post : List (List GateAction)) (rest : List GateAction) :
      SchedStep ⟨free, pre ++ (GateAction.work :: rest) :: post⟩
        ⟨free, pre ++ rest :: post⟩
  | release (free : Nat) (pre post : List (List GateAction)) (rest : List GateAction) :
      SchedStep ⟨free, pre ++ (GateAction.release :: rest) :: post⟩
        ⟨free + 1, pre ++ rest :: post⟩

/-- A task currently holds a semaphore slot when it has passed its
`acquire` but not yet its `release`. -/
def holdsSlot (t : List GateAction) : Bool :=
  decide (GateAction.release ∈ t) && !decide (GateAction.acquire ∈ t)

/-- Number of domain pipelines in flight: tasks between slot acquisition
and release. -/
def inFlight (s : Sched) : Nat := s.tasks.countP holdsSlot

/-- Shapes a task's remaining trace can take: finished, or holding the
slot with only provider calls left before the final release, or not yet
acquired. -/
def TraceShape (t : List GateAction) : Prop :=
  t = [] ∨
    ∃ mid, (∀ a ∈ mid, a = GateAction.work) ∧
      (t = mid ++ [GateAction.release] ∨
        t = GateAction.acquire :: (mid ++ [GateAction.release]))

/-- Initial scheduler state for a batch: `run` sizes the semaphore by the
caller's `concurrency` parameter and shares it across all per-domain tasks
(pipeline.py lines 60-64). -/
def initSched (concurrency : Nat) (domains : List String) (provs : String → Providers) :
    Sched :=
  ⟨concurrency, domains.map (fun d => processTrace (provs d))⟩

/-! ## Helper lemmas: the lexicographic order -/

/-- Unfolding of `charsLe` at a cons pair. -/
theorem charsLe_cons (a b : Char) (as bs : List Char) :
    charsLe (a :: as) (b :: bs) = true ↔ a < b ∨ (a = b ∧ charsLe as bs = true) := by
  rcases lt_trichotomy a b with h | h | h
  · simp [charsLe, h]
  · subst h
    simp [charsLe, lt_irrefl]
  · simp [charsLe, not_lt_of_gt h, h, ne_of_gt h, lt_asymm h]

/-- Totality of the code-point order. -/
theorem charsLe_total : ∀ x y : List Char, charsLe x y = true ∨ charsLe y x = true
  | [], _ => Or.inl rfl
  | _ :: _, [] => Or.inr rfl
  | a :: as, b :: bs => by
    rcases lt_trichotomy a b with h | h | h
    · exact Or.inl ((charsLe_cons a b as bs).mpr (Or.inl h))
    · subst h
      rcases charsLe_total as bs with h2 | h2
      · exact Or.inl ((charsLe_cons a a as bs).mpr (Or.inr ⟨rfl, h2⟩))
      · exact Or.inr ((charsLe_cons a a bs as).mpr (Or.inr ⟨rfl, h2⟩))
    · exact Or.inr ((charsLe_cons b a bs as).mpr (Or.inl h))

/-- Transitivity of the code-point order. -/
theorem charsLe_trans : ∀ x y z : List Char,
    charsLe x y = true → charsLe y z = true → charsLe x z = true
  | [], _, _, _, _ => rfl
  | _ :: _, [], _, h1, _ => by simp [charsLe] at h1
  | _ :: _, _ :: _, [], _, h2 => by simp [charsLe] at h2
  | a :: as, b :: bs, c :: cs, h1, h2 => by
    rcases (charsLe_cons a b as bs).mp h1 with hab | ⟨hab, h1t⟩
    · rcases (charsLe_cons b c bs cs).mp h2 with hbc | ⟨hbc, _⟩
      · exact (charsLe_cons a c as cs).mpr (Or.inl (lt_trans hab hbc))
      · exact (charsLe_cons a c as cs).mpr (Or.inl (hbc ▸ hab))
    · rcases (charsLe_cons b c bs cs).mp h2 with hbc | ⟨hbc, h2t⟩
      · exact (charsLe_cons a c as cs).mpr (Or.inl (hab ▸ hbc))
      · exact (charsLe_cons a c as cs).mpr
          (Or.inr ⟨hab.trans hbc, charsLe_trans as bs cs h1t h2t⟩)

/-- Totality of `strLe`. -/
theorem strLe_total (a b : String) : strLe a b = true ∨ strLe b a = true :=
  charsLe_total a.data b.data

/-- Transitivity of `strLe`. -/
theorem strLe_trans (a b c : String) :
    strLe a b = true → strLe b c = true → strLe a c = true :=
  charsLe_trans a.data b.data c.data

/-! ## Helper lemmas: stable sort -/

/-- Membership in a stable insertion. -/
theorem mem_insertStable {α : Type} (le : α → α → Bool) (a x : α) :
    ∀ l : List α, x ∈ insertStable le a l ↔ x = a ∨ x ∈ l
  | [] => by simp [insertStable]
  | b :: l => by
    by_cases h : le a b = true
    · simp [insertStable, h]
    · simp only [insertStable, if_neg h, List.mem_cons, mem_insertStable le a x l]
      tauto

/-- A stable insertion permutes the cons. -/
theorem insertStable_perm {α : Type} (le : α → α → Bool) (a : α) :
    ∀ l : List α, (insertStable le a l).Perm (a :: l)
  | [] => List.Perm.refl _
  | b :: l => by
    by_cases h : le a b = true
    · simp [insertStable, h]
    · simp only [insertStable, if_neg h]
      exact ((insertStable_perm le a l).cons b).trans (List.Perm.swap a b l)

/-- The stable sort is a permutation of its input. -/
theorem stableSort_perm {α : Type} (le : α → α → Bool) :
    ∀ l : List α, (stableSort le l).Perm l
  | [] => List.Perm.refl _
  | a :: l => by
    simp only [stableSort]
    exact (insertStable_perm le a (stableSort le l)).trans ((stableSort_perm le l).cons a)

/-- Stable insertion into a pairwise-ordered list keeps it ordered, for a
total transitive comparator. -/
theorem pairwise_insertStable {α : Type} {le : α → α → Bool}
    (htot : ∀ a b, le a b = true ∨ le b a = true)
    (htrans : ∀ a b c, le a b = true → le b c = true → le a c = true) (a : α) :
    ∀ l : List α, l.Pairwise (fun x y => le x y = true) →
      (insertStable le a l).Pairwise (fun x y => le x y = true)
  | [], _ => by simp [insertStable]
  | b :: l, h => by
    rcases List.pairwise_cons.mp h with ⟨hb, hl⟩
    by_cases hab : le a b = true
    · simp only [insertStable, if_pos hab]
      refine List.pairwise_cons.mpr ⟨?_, h⟩
      intro x hx
      rcases List.mem_cons.mp hx with rfl | hx
      · exact hab
      · exact htrans a b x hab (hb x hx)
    · simp only [insertStable, if_neg hab]
      have hba : le b a = true := (htot a b).resolve_left hab
      refine List.pairwise_cons.mpr ⟨?_, pairwise_insertStable htot htrans a l hl⟩
      intro x hx
      rcases (mem_insertStable le a x l).mp hx with rfl | hx
      · exact hba
      · exact hb x hx

/-- The stable sort is pairwise ordered, for a total transitive
comparator. -/
theorem pairwise_stableSort {α : Type} {le : α → α → Bool}
    (htot : ∀ a b, le a b = true ∨ le b a = true)
    (htrans : ∀ a b c, le a b = true → le b c = true → le a c = true) :
    ∀ l : List α, (stableSort le l).Pairwise (fun x y => le x y = true)
  | [] => List.Pairwise.nil
  | a :: l => by
    simp only [stableSort]
    exact pairwise_insertStable htot htrans a _ (pairwise_stableSort htot htrans l)

/-! ## Helper lemmas: first-seen dedupe -/

/-- The keys of a deduplicated list are distinct and avoid the accumulator. -/
theorem dedupeByKey_key_nodup {α κ : Type} [DecidableEq κ] (key : α → κ) :
    ∀ (seen : List κ) (l : List α),
      ((dedupeByKey key seen l).map key).Nodup ∧
        ∀ k ∈ (dedupeByKey key seen l).map key, k ∉ seen
  | seen, [] => by simp [dedupeByKey]
  | seen, a :: l => by
    by_cases h : key a ∈ seen
    · simpa [dedupeByKey, h] using dedupeByKey_key_nodup key seen l
    · have ih := dedupeByKey_key_nodup key (key a :: seen) l
      simp only [dedupeByKey, if_neg h, List.map_cons]
      refine ⟨List.nodup_cons.mpr ⟨fun hmem => (ih.2 _ hmem) (List.mem_cons_self _ _), ih.1⟩,
        ?_⟩
      intro k hk
      rcases List.mem_cons.mp hk with rfl | hk
      · exact h
      · exact fun hk2 => (ih.2 k hk) (List.mem_cons_of_mem _ hk2)

/-- Membership in the identity-keyed dedupe: an element survives exactly
when it occurred and its key was not already seen. -/
theorem mem_dedupeId {α : Type} [DecidableEq α] :
    ∀ (seen l : List α) (x : α),
      x ∈ dedupeByKey (fun s => s) seen l ↔ x ∈ l ∧ x ∉ seen
  | seen, [], x => by simp [dedupeByKey]
  | seen, a :: l, x => by
    by_cases h : a ∈ seen
    · rw [show dedupeByKey (fun s => s) seen (a :: l) = dedupeByKey (fun s => s) seen l
          from if_pos h]
      rw [mem_dedupeId seen l x]
      constructor
      · exact fun ⟨hx, hs⟩ => ⟨List.mem_cons_of_mem _ hx, hs⟩
      · rintro ⟨hx, hs⟩
        rcases List.mem_cons.mp hx with rfl | hx
        · exact absurd h hs
        · exact ⟨hx, hs⟩
    · rw [show dedupeByKey (fun s => s) seen (a :: l) =
          a :: dedupeByKey (fun s => s) (a :: seen) l from if_neg h]
      rw [List.mem_cons, mem_dedupeId (a :: seen) l x]
      constructor
      · rintro (rfl | ⟨hx, hs⟩)
        · exact ⟨List.mem_cons_self _ _, h⟩
        · exact ⟨List.mem_cons_of_mem _ hx, fun h2 => hs (List.mem_cons_of_mem _ h2)⟩
      · rintro ⟨hx, hs⟩
        rcases List.mem_cons.mp hx with rfl | hx
        · exact Or.inl rfl
        · by_cases hxa : x = a
          · exact Or.inl hxa
          · exact Or.inr ⟨hx, fun h2 => by
              rcases List.mem_cons.mp h2 with h3 | h3
              · exact hxa h3
              · exact hs h3⟩

/-! ## Pipeline helper lemmas -/

/-- The result of `process_domain` always carries the input domain: the
`domain` field is set at creation (pipeline.py line 23) and never
reassigned. -/
theorem process_domain_fst_domain (d : String) (p : Providers) :
    (process_domain d p).1.domain = d := by
  unfold process_domain
  by_cases ha : p.availability = some true
  · by_cases hi : p.indexed = some true
    · rcases hs : p.snapshots with e | snaps
      · simp [ha, hi, hs]
      · by_cases hsn : snaps.isEmpty
        · simp [ha, hi, hs, hsn]
        · rcases hd : p.download snaps with e | n
          · simp [ha, hi, hs, hsn, hd]
          · simp [ha, hi, hs, hsn, hd]
    · simp [ha, hi]
  · simp [ha]

/-- A note produced by the archive-stage `except` handler is non-empty:
it always begins with the literal `"Wayback error: "`. -/
theorem wayback_note_ne_empty (e : String) : "Wayback error: " ++ e ≠ "" := by
  intro h
  have h2 : ("Wayback error: " ++ e).data = ([] : List Char) := by
    rw [h]
  rw [String.data_append] at h2
  rcases List.append_eq_nil.mp h2 with ⟨h3, _⟩
  exact absurd h3 (by decide)

/-- Concrete provider outcomes used by witnesses: an unavailable domain. -/
def provUnavail : Providers :=
  { availability := some false, indexed := none, snapshots := Except.ok [],
    download := fun _ => Except.ok 0 }

/-- Concrete provider outcomes used by witnesses: available but not
indexed. -/
def provNotIndexed : Providers :=
  { availability := some true, indexed := some false, snapshots := Except.ok [],
    download := fun _ => Except.ok 0 }

/-- Concrete provider outcomes used by witnesses: available, indexed, and
the snapshot listing raises. -/
def provArchiveError : Providers :=
  { availability := some true, indexed := some true, snapshots := Except.error "boom",
    download := fun _ => Except.ok 0 }

/-- Concrete provider outcomes used by witnesses: available, indexed, no
snapshots. -/
def provNoSnaps : Providers :=
  { availability := some true, indexed := some true, snapshots := Except.ok [],
    download := fun _ => Except.ok 7 }

/-! ## Claims about the pipeline -/

/-- C1: for every input list of domains, `run` returns exactly one
`DomainResult` per input domain, in input order, regardless of task
completion order: the i-th output is the processing result of the i-th
input domain and carries that domain. -/
theorem run_returns_one_result_per_domain_in_order
    (domains : List String) (provs : String → Providers) :
    (run domains provs).length = domains.length ∧
      ∀ i (hi : i < domains.length) (hri : i < (run domains provs).length),
        (run domains provs).get ⟨i, hri⟩ =
            (process_domain (domains.get ⟨i, hi⟩) (provs (domains.get ⟨i, hi⟩))).1 ∧
          ((run domains provs).get ⟨i, hri⟩).domain = domains.get ⟨i, hi⟩ := by
  refine ⟨List.length_map _ _, ?_⟩
  intro i hi hri
  have hget : (run domains provs).get ⟨i, hri⟩ =
      (process_domain (domains.get ⟨i, hi⟩) (provs (domains.get ⟨i, hi⟩))).1 := by
    simp [run, List.get_eq_getElem, List.getElem_map]
  exact ⟨hget, by rw [hget]; exact process_domain_fst_domain _ _⟩

/-- Witness for C1 at a concrete two-domain batch. -/
theorem run_returns_one_result_per_domain_in_order_witness :
    (run ["alpha.example", "beta.example"] (fun _ => provUnavail)).length = 2 ∧
      ((run ["alpha.example", "beta.example"] (fun _ => provUnavail)).get
          ⟨1, by decide⟩).domain = "beta.example" :=
  ⟨(run_returns_one_result_per_domain_in_order ["alpha.example", "beta.example"]
      (fun _ => provUnavail)).1,
    ((run_returns_one_result_per_domain_in_order ["alpha.example", "beta.example"]
      (fun _ => provUnavail)).2 1 (by decide) (by decide)).2⟩

/-- C2: the short-circuit chain.  If the availability check returns
anything but `available`, the result's `indexed_google` stays at its
default `none`, `wayback_screenshots` stays 0, and neither the archive
listing nor the download is attempted; if the indexation check returns
anything but `indexed`, neither the archive listing nor the download is
attempted. -/
theorem process_domain_short_circuit (d : String) (p : Providers) :
    (p.availability ≠ some true →
      (process_domain d p).1.indexed_google = none ∧
        (process_domain d p).1.wayback_screenshots = 0 ∧
        (process_domain d p).2 = ⟨false, false⟩) ∧
      (p.indexed ≠ some true → (process_domain d p).2 = ⟨false, false⟩) := by
  constructor
  · intro h
    simp [process_domain, h]
  · intro h
    by_cases ha : p.availability = some true
    · simp [process_domain, ha, h]
    · simp [process_domain, ha]

/-- Witness for C2: an unavailable domain and a non-indexed domain. -/
theorem process_domain_short_circuit_witness :
    ((process_domain "taken.example" provUnavail).1.indexed_google = none ∧
        (process_domain "taken.example" provUnavail).1.wayback_screenshots = 0 ∧
        (process_domain "taken.example" provUnavail).2 = ⟨false, false⟩) ∧
      (process_domain "notindexed.example" provNotIndexed).2 = ⟨false, false⟩ :=
  ⟨(process_domain_short_circuit "taken.example" provUnavail).1 (by decide),
    (process_domain_short_circuit "notindexed.example" provNotIndexed).2 (by decide)⟩

/-- C4: if all four variant queries fail, `list_snapshots` returns the
empty list without raising, and the processor treats it as no snapshots:
`wayback_screenshots` stays 0, `notes` stays empty (no exception), and
`download_screenshots` — the only creator of the per-domain
subdirectory — is never called. -/
theorem all_variants_fail_yields_empty_and_benign
    (outcomes : List (Except String (List SnapshotItem))) (limit : Nat)
    (_hlen : outcomes.length = 4)
    (hfail : ∀ o ∈ outcomes, Except.toOption o = none)
    (d : String) (p : Providers)
    (hp : p.snapshots = Except.ok (wbp_list_snapshots outcomes limit)) :
    wbp_list_snapshots outcomes limit = [] ∧
      (process_domain d p).1.wayback_screenshots = 0 ∧
      (process_domain d p).1.notes = "" ∧
      (process_domain d p).2.downloadCalled = false := by
  have hparts : collectParts outcomes = [] := List.filterMap_eq_nil_iff.mpr hfail
  have hempty : wbp_list_snapshots outcomes limit = [] := by
    simp [wbp_list_snapshots, hparts, merge_and_dedupe, dedupeByKey, stableSort]
  refine ⟨hempty, ?_⟩
  rw [hempty] at hp
  by_cases ha : p.availability = some true
  · by_cases hi : p.indexed = some true
    · simp [process_domain, ha, hi, hp]
    · simp [process_domain, ha, hi]
  · simp [process_domain, ha]

/-- Witness for C4: four failed variant fetches. -/
theorem all_variants_fail_yields_empty_and_benign_witness :
    wbp_list_snapshots
        [Except.error "t1", Except.error "t2", Except.error "t3", Except.error "t4"] 50 = [] ∧
      (process_domain "free-indexed.example" provNoSnaps).1.wayback_screenshots = 0 ∧
      (process_domain "free-indexed.example" provNoSnaps).1.notes = "" ∧
      (process_domain "free-indexed.example" provNoSnaps).2.downloadCalled = false :=
  all_variants_fail_yields_empty_and_benign
    [Except.error "t1", Except.error "t2", Except.error "t3", Except.error "t4"] 50
    (by decide) (by decide) "free-indexed.example" provNoSnaps rfl

/-- C5: every exception in the archive listing/download stage is caught:
the processor still returns, the returned result's `notes` is non-empty,
and the fields already set (`domain`, `available`, `indexed_google`)
remain as they were; `run` therefore collects a result for every domain
(it never observes a failed task). -/
theorem archive_exception_contained (d : String) (p : Providers)
    (ha : p.availability = some true) (hi : p.indexed = some true)
    (herr : (∃ e, p.snapshots = Except.error e) ∨
      ∃ s e, p.snapshots = Except.ok s ∧ s ≠ [] ∧ p.download s = Except.error e) :
    (process_domain d p).1.notes ≠ "" ∧
      (process_domain d p).1.domain = d ∧
      (process_domain d p).1.available = some true ∧
      (process_domain d p).1.indexed_google = some true ∧
      ∀ domains provs, (run domains provs).length = domains.length := by
  have hrun : ∀ (domains : List String) (provs : String → Providers),
      (run domains provs).length = domains.length := fun _ _ => List.length_map _ _
  rcases herr with ⟨e, he⟩ | ⟨s, e, hs, hne, hd⟩
  · refine ⟨?_, ?_, ?_, ?_, hrun⟩ <;>
      simp [process_domain, ha, hi, he, wayback_note_ne_empty]
  · have hsn : ¬s.isEmpty := by
      simpa [List.isEmpty_iff] using hne
    refine ⟨?_, ?_, ?_, ?_, hrun⟩ <;>
      simp [process_domain, ha, hi, hs, hsn, hd, wayback_note_ne_empty]

/-- Witness for C5: the snapshot listing raises. -/
theorem archive_exception_contained_witness :
    (process_domain "free-indexed.example" provArchiveError).1.notes ≠ "" ∧
      (process_domain "free-indexed.example" provArchiveError).1.domain =
        "free-indexed.example" ∧
      (process_domain "free-indexed.example" provArchiveError).1.available = some true ∧
      (process_domain "free-indexed.example" provArchiveError).1.indexed_google = some true ∧
      ∀ domains provs, (run domains provs).length = domains.length :=
  archive_exception_contained "free-indexed.example" provArchiveError rfl rfl
    (Or.inl ⟨"boom", rfl⟩)

/-! ## Claims about the snapshot merger -/

/-- Totality of the descending-timestamp comparator. -/
theorem snapDescLe_total (a b : SnapshotItem) :
    snapDescLe a b = true ∨ snapDescLe b a = true :=
  (strLe_total b.timestamp a.timestamp).imp id id

/-- Transitivity of the descending-timestamp comparator. -/
theorem snapDescLe_trans (a b c : SnapshotItem) :
    snapDescLe a b = true → snapDescLe b c = true → snapDescLe a c = true :=
  fun h1 h2 => strLe_trans c.timestamp b.timestamp a.timestamp h2 h1

/-- C3: for any combination of variant result lists, the merged list
contains no two items with the same `(timestamp, original)` identity key,
and is sorted descending by timestamp. -/
theorem merge_and_dedupe_nodup_sorted_desc (lists : List (List SnapshotItem)) :
    ((merge_and_dedupe lists).map snapKey).Nodup ∧
      (merge_and_dedupe lists).Pairwise
        (fun a b => strLe b.timestamp a.timestamp = true) := by
  constructor
  · have hperm :
        ((stableSort snapDescLe (dedupeByKey snapKey [] lists.flatten)).map snapKey).Perm
          ((dedupeByKey snapKey [] lists.flatten).map snapKey) :=
      (stableSort_perm snapDescLe _).map snapKey
    exact hperm.nodup_iff.mpr (dedupeByKey_key_nodup snapKey [] lists.flatten).1
  · exact pairwise_stableSort snapDescLe_total snapDescLe_trans _

/-- C7 (amended): the waybackpy-based `list_snapshots` truncates the
merged, deduplicated, descending-sorted list to its first `limit` entries,
so its output never exceeds `limit`; the legacy
`src/providers/wayback.py` variant performs no such global truncation. -/
theorem wbp_list_snapshots_truncates_to_limit
    (outcomes : List (Except String (List SnapshotItem))) (limit : Nat) :
    (wbp_list_snapshots outcomes limit).length ≤ limit ∧
      wbp_list_snapshots outcomes limit =
        ((merge_and_dedupe (collectParts outcomes)).take limit).map snapKey := by
  constructor
  · by_cases h : limit < (merge_and_dedupe (collectParts outcomes)).length
    · simp [wbp_list_snapshots, h, List.length_take]
    · simp [wbp_list_snapshots, h, not_lt.mp h]
  · by_cases h : limit < (merge_and_dedupe (collectParts outcomes)).length
    · simp [wbp_list_snapshots, h]
    · simp [wbp_list_snapshots, h, List.take_of_length_le (not_lt.mp h)]

/-- C7 counterexample: the legacy `list_snapshots`
(src/providers/wayback.py lines 6-46) applies `limit` only as a
per-variant server parameter; with `limit = 1` and two variants each
returning one distinct row, it returns 2 > 1 entries. -/
theorem legacy_list_snapshots_can_exceed_limit :
    ¬((legacy_list_snapshots
          [Except.ok [("20240102000000", "http://a.example/")],
            Except.ok [("20240101000000", "http://b.example/")]] 1).length ≤ 1) := by
  decide

/-- Snapshot items with equal capture timestamps but different originals,
as produced by two different URL variants of the same domain. -/
def tieItemA : SnapshotItem :=
  { timestamp := "20240101000000", original := "http://a.example/", archive_url := "u1" }

/-- Second item of the timestamp tie. -/
def tieItemB : SnapshotItem :=
  { timestamp := "20240101000000", original := "http://www.a.example/", archive_url := "u2" }

/-- C6 (code bug): the final merged order is not a function of the
variant-result set alone.  `_merge_and_dedupe` sorts by timestamp only,
and Python's sort is stable, so items with equal timestamps but different
originals stay in the arrival order of the concurrently-completing
variants: the two arrival orders of the same two variant results produce
different output lists. -/
theorem merge_order_depends_on_arrival_at_tie :
    wbp_list_snapshots [Except.ok [tieItemA], Except.ok [tieItemB]] 50 ≠
      wbp_list_snapshots [Except.ok [tieItemB], Except.ok [tieItemA]] 50 := by
  decide

/-! ## Claims about the downloader -/

/-- Number of manifest entries counted as saved by an actual download
(not by the already-exists skip path). -/
def goodCount (m : List ManifestEntry) : Nat :=
  m.countP (fun e => !e.skipped && e.saved.isSome)

/-- Per-entry contract of the downloader: for an entry recording an
actual HTTP attempt (not a skip), `saved` is set exactly when the fetch of
its archive URL came back 200 with an HTML content type. -/
def EntryOk (fetch : String → FetchOutcome) (e : ManifestEntry) : Prop :=
  e.skipped = false → (e.saved.isSome = true ↔ htmlOk (fetch e.archive_url) = true)

/-- Invariant of the download loop: the saved counter counts exactly the
non-skip saved manifest entries, one file is written per counted save, and
every entry satisfies the per-entry contract. -/
def DlInv (fetch : String → FetchOutcome) (st : DownloadState) : Prop :=
  st.saved = goodCount st.manifest ∧ st.files.length = st.saved ∧
    ∀ e ∈ st.manifest, EntryOk fetch e

/-- Appending a manifest entry that is not counted as saved preserves the
invariant. -/
theorem dlInv_append_entry (fetch : String → FetchOutcome) (st : DownloadState)
    (e : ManifestEntry) (he : EntryOk fetch e)
    (hpred : (!e.skipped && e.saved.isSome) = false)
    (hinv : DlInv fetch st) :
    DlInv fetch { st with manifest := st.manifest ++ [e] } := by
  obtain ⟨h1, h2, h3⟩ := hinv
  refine ⟨?_, h2, ?_⟩
  · show st.saved = goodCount (st.manifest ++ [e])
    rw [h1]
    simp [goodCount, List.countP_append, List.countP_cons, hpred]
  · intro x hx
    rcases List.mem_append.mp hx with hx | hx
    · exact h3 x hx
    · rw [List.mem_singleton] at hx
      subst hx
      exact he

/-- Appending a counted-save manifest entry together with its written file
preserves the invariant. -/
theorem dlInv_append_saved (fetch : String → FetchOutcome) (st : DownloadState)
    (e : ManifestEntry) (f : String × String) (he : EntryOk fetch e)
    (hpred : (!e.skipped && e.saved.isSome) = true)
    (hinv : DlInv fetch st) :
    DlInv fetch
      { saved := st.saved + 1, manifest := st.manifest ++ [e],
        files := st.files ++ [f] } := by
  obtain ⟨h1, h2, h3⟩ := hinv
  refine ⟨?_, ?_, ?_⟩
  · show st.saved + 1 = goodCount (st.manifest ++ [e])
    rw [h1]
    simp [goodCount, List.countP_append, List.countP_cons, hpred]
  · simp [h2]
  · intro x hx
    rcases List.mem_append.mp hx with hx | hx
    · exact h3 x hx
    · rw [List.mem_singleton] at hx
      subst hx
      exact he

/-- One download step appends exactly one manifest entry and preserves the
invariant. -/
theorem download_step_spec (fetch : String → FetchOutcome) (overwrite : Bool)
    (existing : List String) (st : DownloadState) (snap : String × String) :
    (download_step fetch overwrite existing st snap).manifest.length =
        st.manifest.length + 1 ∧
      (DlInv fetch st → DlInv fetch (download_step fetch overwrite existing st snap)) := by
  by_cases hskip : ((existing.contains (snap.1 ++ ".html") ||
      (st.files.map Prod.fst).contains (snap.1 ++ ".html")) && !overwrite) = true
  · constructor
    · simp only [download_step]
      rw [if_pos hskip]
      simp
    · intro hinv
      simp only [download_step]
      rw [if_pos hskip]
      exact dlInv_append_entry fetch st _ (fun h => by simp at h) (by simp) hinv
  · cases hf : fetch ("https://web.archive.org/web/" ++ snap.1 ++ "/" ++
        normalize_original snap.2) with
    | response status ctype body =>
      by_cases hcond : (status == 200 && strContainsSub ctype "text/html") = true
      · constructor
        · simp only [download_step]
          rw [if_neg hskip, hf]
          dsimp only
          rw [if_pos hcond]
          simp
        · intro hinv
          simp only [download_step]
          rw [if_neg hskip, hf]
          dsimp only
          rw [if_pos hcond]
          exact dlInv_append_saved fetch st _ _
            (fun _ => by simp [htmlOk, hf, hcond]) (by simp) hinv
      · constructor
        · simp only [download_step]
          rw [if_neg hskip, hf]
          dsimp only
          rw [if_neg hcond]
          simp
        · intro hinv
          simp only [download_step]
          rw [if_neg hskip, hf]
          dsimp only
          rw [if_neg hcond]
          exact dlInv_append_entry fetch st _
            (fun _ => by simp [htmlOk, hf, hcond]) (by simp) hinv
    | exc msg =>
      constructor
      · simp only [download_step]
        rw [if_neg hskip, hf]
        simp
      · intro hinv
        simp only [download_step]
        rw [if_neg hskip, hf]
        exact dlInv_append_entry fetch st _
          (fun _ => by simp [htmlOk, hf]) (by simp) hinv

/-- The download loop appends one manifest entry per processed snapshot
and preserves the invariant. -/
theorem download_loop_spec (fetch : String → FetchOutcome) (overwrite : Bool)
    (existing : List String) :
    ∀ (subset : List (String × String)) (st : DownloadState),
      (download_loop fetch overwrite existing subset st).manifest.length =
          st.manifest.length + subset.length ∧
        (DlInv fetch st → DlInv fetch (download_loop fetch overwrite existing subset st))
  | [], st => by simp [download_loop]
  | snap :: rest, st => by
    have hstep := download_step_spec fetch overwrite existing st snap
    have ih := download_loop_spec fetch overwrite existing rest
      (download_step fetch overwrite existing st snap)
    simp only [download_loop]
    refine ⟨?_, fun h => ih.2 (hstep.2 h)⟩
    rw [ih.1, hstep.1]
    simp [List.length_cons]
    omega

/-- C8 (amended, for the waybackpy downloader of wayback_wbp.py): the
manifest lists one entry per processed snapshot; the saved counter counts
exactly the entries counted as saved, one HTML file is written per counted
save, and an entry of an actual HTTP attempt (not an already-exists skip)
is counted as saved if and only if the fetch of its archive URL returned
status 200 with an HTML content type; every other outcome is recorded in
the manifest, never raised. -/
theorem download_saved_iff_http200_html (fetch : String → FetchOutcome)
    (existing : List String) (snapshots : List (String × String))
    (max_count : Nat) (overwrite : Bool) (i : Nat)
    (hm : i < (download_screenshots fetch existing snapshots
        max_count overwrite).manifest.length) :
    (download_screenshots fetch existing snapshots max_count overwrite).manifest.length =
        (snapshots.take max_count).length ∧
      (download_screenshots fetch existing snapshots max_count overwrite).saved =
        goodCount (download_screenshots fetch existing snapshots max_count
          overwrite).manifest ∧
      (download_screenshots fetch existing snapshots max_count overwrite).files.length =
        (download_screenshots fetch existing snapshots max_count overwrite).saved ∧
      (((download_screenshots fetch existing snapshots max_count overwrite).manifest.get
            ⟨i, hm⟩).skipped = false →
        (((download_screenshots fetch existing snapshots max_count overwrite).manifest.get
              ⟨i, hm⟩).saved.isSome = true ↔
          htmlOk (fetch ((download_screenshots fetch existing snapshots max_count
              overwrite).manifest.get ⟨i, hm⟩).archive_url) = true)) := by
  have h := download_loop_spec fetch overwrite existing (snapshots.take max_count)
    ({} : DownloadState)
  have hinv0 : DlInv fetch ({} : DownloadState) :=
    ⟨rfl, rfl, fun e he => absurd he (List.not_mem_nil e)⟩
  obtain ⟨hlen, hpres⟩ := h
  obtain ⟨h1, h2, h3⟩ := hpres hinv0
  exact ⟨by simpa using hlen, h1, h2,
    h3 _ (List.get_mem (download_screenshots fetch existing snapshots max_count
      overwrite).manifest _ _)⟩

/-- Witness for C8 at a concrete successful HTML download. -/
theorem download_saved_iff_http200_html_witness :
    ((download_screenshots (fun _ => FetchOutcome.response 200 "text/html" "BODY") []
        [("20240101000000", "http://a.example/")] 5 false).manifest.get
          ⟨0, by decide⟩).saved.isSome = true :=
  ((download_saved_iff_http200_html (fun _ => FetchOutcome.response 200 "text/html" "BODY")
      [] [("20240101000000", "http://a.example/")] 5 false 0 (by decide)).2.2.2
    (by decide)).mpr (by decide)

/-- C8 counterexample: the legacy downloader (src/providers/wayback.py
lines 49-67) counts a 200 response with an image content type as saved —
not an HTML content type — and produces no manifest at all. -/
theorem legacy_download_counts_non_html_as_saved :
    (legacy_download_screenshots (fun _ => FetchOutcome.response 200 "image/png" "IMG")
        [("20240101000000", "http://a.example/")] 5).1 = 1 ∧
      strContainsSub "image/png" "text/html" = false := by
  decide

/-! ## Claims about the input reader -/

/-- C10: `read_domains_file` returns the distinct valid normalized domains
in ascending lexicographic order — duplicates and invalid lines removed —
so the list handed to the orchestrator (and hence the output record order)
is sorted order, not input-file line order.  An element is in the output
exactly when some input line normalizes to it. -/
theorem read_domains_file_sorted_distinct_normalized
    (normalize : String → Option String) (lines : List String) :
    (read_domains_file normalize lines).Pairwise (fun a b => strLe a b = true) ∧
      (read_domains_file normalize lines).Nodup ∧
      ∀ x, x ∈ read_domains_file normalize lines ↔
        (x ≠ "" ∧ ∃ line ∈ lines, normalize line = some x) := by
  refine ⟨pairwise_stableSort strLe_total strLe_trans _, ?_, ?_⟩
  · have hperm :
        (stableSort strLe (dedupeByKey (fun s : String => s) []
            ((lines.filterMap normalize).filter (fun n => n ≠ "")))).Perm
          (dedupeByKey (fun s : String => s) []
            ((lines.filterMap normalize).filter (fun n => n ≠ ""))) :=
      stableSort_perm strLe _
    refine hperm.nodup_iff.mpr ?_
    have h := (dedupeByKey_key_nodup (fun s : String => s) []
      ((lines.filterMap normalize).filter (fun n => n ≠ ""))).1
    simpa using h
  · intro x
    have hperm :
        (stableSort strLe (dedupeByKey (fun s : String => s) []
            ((lines.filterMap normalize).filter (fun n => n ≠ "")))).Perm
          (dedupeByKey (fun s : String => s) []
            ((lines.filterMap normalize).filter (fun n => n ≠ ""))) :=
      stableSort_perm strLe _
    rw [show read_domains_file normalize lines =
        stableSort strLe (dedupeByKey (fun s : String => s) []
          ((lines.filterMap normalize).filter (fun n => n ≠ ""))) from rfl]
    rw [hperm.mem_iff, mem_dedupeId]
    constructor
    · rintro ⟨hmem, -⟩
      rcases List.mem_filter.mp hmem with ⟨hmem2, hne⟩
      rcases List.mem_filterMap.mp hmem2 with ⟨line, hline, hnorm⟩
      exact ⟨of_decide_eq_true hne, line, hline, hnorm⟩
    · rintro ⟨hne, line, hline, hnorm⟩
      exact ⟨List.mem_filter.mpr ⟨List.mem_filterMap.mpr ⟨line, hline, hnorm⟩,
        decide_eq_true hne⟩, List.not_mem_nil x⟩

/-! ## Claims about the concurrency gate -/

/-- A trace whose provider calls all lie before a final release holds the
slot. -/
theorem holdsSlot_mid_release {mid : List GateAction}
    (hmid : ∀ a ∈ mid, a = GateAction.work) :
    holdsSlot (mid ++ [GateAction.release]) = true := by
  have h1 : GateAction.release ∈ mid ++ [GateAction.release] :=
    List.mem_append_right _ (List.mem_singleton_self _)
  have h2 : GateAction.acquire ∉ mid ++ [GateAction.release] := by
    intro hmem
    rcases List.mem_append.mp hmem with hmem | hmem
    · exact GateAction.noConfusion (hmid _ hmem)
    · rw [List.mem_singleton] at hmem
      exact GateAction.noConfusion hmem
  simp [holdsSlot, h1, h2]

/-- Beheading a shaped trace at an `acquire`: the task was not holding,
and is holding afterwards. -/
theorem shape_acquire {rest : List GateAction}
    (h : TraceShape (GateAction.acquire :: rest)) :
    TraceShape rest ∧ holdsSlot (GateAction.acquire :: rest) = false ∧
      holdsSlot rest = true := by
  rcases h with h | ⟨mid, hmid, h | h⟩
  · exact absurd h (List.cons_ne_nil _ _)
  · exfalso
    cases mid with
    | nil => simp at h
    | cons w mid2 =>
      rw [List.cons_append] at h
      injection h with h1 h2
      exact GateAction.noConfusion ((hmid w (List.mem_cons_self _ _)) ▸ h1)
  · injection h with h1 h2
    subst h2
    refine ⟨Or.inr ⟨mid, hmid, Or.inl rfl⟩, by simp [holdsSlot], ?_⟩
    exact holdsSlot_mid_release hmid

/-- Beheading a shaped trace at a `work`: the holding status is
unchanged. -/
theorem shape_work {rest : List GateAction}
    (h : TraceShape (GateAction.work :: rest)) :
    TraceShape rest ∧ holdsSlot (GateAction.work :: rest) = holdsSlot rest := by
  have hmem : (GateAction.release ∈ GateAction.work :: rest ↔ GateAction.release ∈ rest) ∧
      (GateAction.acquire ∈ GateAction.work :: rest ↔ GateAction.acquire ∈ rest) := by
    constructor <;> simp
  have hslot : holdsSlot (GateAction.work :: rest) = holdsSlot rest := by
    unfold holdsSlot
    rw [decide_eq_decide.mpr hmem.1, decide_eq_decide.mpr hmem.2]
  rcases h with h | ⟨mid, hmid, h | h⟩
  · exact absurd h (List.cons_ne_nil _ _)
  · cases mid with
    | nil => simp at h
    | cons w mid2 =>
      rw [List.cons_append] at h
      injection h with h1 h2
      refine ⟨Or.inr ⟨mid2, fun a ha => hmid a (List.mem_cons_of_mem _ ha), Or.inl h2⟩,
        hslot⟩
  · injection h with h1 h2
    exact GateAction.noConfusion h1

/-- Beheading a shaped trace at a `release`: the trace ends and the slot
is given back. -/
theorem shape_release {rest : List GateAction}
    (h : TraceShape (GateAction.release :: rest)) :
    rest = [] ∧ holdsSlot (GateAction.release :: rest) = true := by
  rcases h with h | ⟨mid, hmid, h | h⟩
  · exact absurd h (List.cons_ne_nil _ _)
  · cases mid with
    | nil =>
      rw [List.nil_append] at h
      injection h with h1 h2
      exact ⟨h2, by rw [h2]; decide⟩
    | cons w mid2 =>
      rw [List.cons_append] at h
      injection h with h1 h2
      exact absurd ((hmid w (List.mem_cons_self _ _)) ▸ h1) (by decide)
  · injection h with h1 h2
    exact GateAction.noConfusion h1

/-- Invariant of the scheduler: free slots plus in-flight pipelines equal
the gate size, and every remaining trace is well shaped. -/
def SchedInv (c : Nat) (s : Sched) : Prop :=
  s.free + inFlight s = c ∧ ∀ t ∈ s.tasks, TraceShape t

/-- Decomposition of the in-flight count at a focused task. -/
theorem inFlight_split (free : Nat) (pre post : List (List GateAction))
    (t : List GateAction) :
    inFlight ⟨free, pre ++ t :: post⟩ =
      pre.countP holdsSlot + post.countP holdsSlot +
        (if holdsSlot t then 1 else 0) := by
  simp [inFlight, List.countP_append, List.countP_cons]
  omega

/-- Every scheduler step preserves the invariant. -/
theorem schedStep_preserves {c : Nat} {s s2 : Sched}
    (hstep : SchedStep s s2) (hinv : SchedInv c s) : SchedInv c s2 := by
  obtain ⟨hsum, hshape⟩ := hinv
  cases hstep with
  | acquire free pre post rest hfree =>
    obtain ⟨hrest, hold1, hold2⟩ :=
      shape_acquire (hshape _ (List.mem_append_right _ (List.mem_cons_self _ _)))
    constructor
    · rw [inFlight_split] at hsum ⊢
      rw [hold1, if_neg (by decide : ¬(false = true))] at hsum
      rw [hold2, if_pos rfl]
      dsimp only at hsum ⊢
      omega
    · intro t ht
      rcases List.mem_append.mp ht with ht | ht
      · exact hshape t (List.mem_append_left _ ht)
      · rcases List.mem_cons.mp ht with rfl | ht
        · exact hrest
        · exact hshape t (List.mem_append_right _ (List.mem_cons_of_mem _ ht))
  | work free pre post rest =>
    obtain ⟨hrest, hold⟩ :=
      shape_work (hshape _ (List.mem_append_right _ (List.mem_cons_self _ _)))
    constructor
    · rw [inFlight_split] at hsum ⊢
      rw [hold] at hsum
      dsimp only at hsum ⊢
      exact hsum
    · intro t ht
      rcases List.mem_append.mp ht with ht | ht
      · exact hshape t (List.mem_append_left _ ht)
      · rcases List.mem_cons.mp ht with rfl | ht
        · exact hrest
        · exact hshape t (List.mem_append_right _ (List.mem_cons_of_mem _ ht))
  | release free pre post rest =>
    obtain ⟨hrest, hold⟩ :=
      shape_release (hshape _ (List.mem_append_right _ (List.mem_cons_self _ _)))
    subst hrest
    constructor
    · rw [inFlight_split] at hsum ⊢
      rw [hold, if_pos rfl] at hsum
      rw [(by decide : holdsSlot [] = false), if_neg (by decide : ¬(false = true))]
      dsimp only at hsum ⊢
      omega
    · intro t ht
      rcases List.mem_append.mp ht with ht | ht
      · exact hshape t (List.mem_append_left _ ht)
      · rcases List.mem_cons.mp ht with rfl | ht
        · exact Or.inl rfl
        · exact hshape t (List.mem_append_right _ (List.mem_cons_of_mem _ ht))

/-- Every element of the inner work list is a provider call. -/
theorem processWork_all_work (p : Providers) :
    ∀ a ∈ processWork p, a = GateAction.work := by
  intro a ha
  unfold processWork at ha
  rcases List.mem_cons.mp ha with rfl | ha
  · rfl
  · split at ha
    · exact absurd ha (List.not_mem_nil a)
    · rcases List.mem_cons.mp ha with rfl | ha
      · rfl
      · split at ha
        · exact absurd ha (List.not_mem_nil a)
        · rcases List.mem_cons.mp ha with rfl | ha
          · rfl
          · split at ha
            · exact absurd ha (List.not_mem_nil a)
            · split at ha
              · exact absurd ha (List.not_mem_nil a)
              · rcases List.mem_cons.mp ha with rfl | ha
                · rfl
                · exact absurd ha (List.not_mem_nil a)

/-- The initial batch state satisfies the invariant. -/
theorem schedInv_init (c : Nat) (domains : List String) (provs : String → Providers) :
    SchedInv c (initSched c domains provs) := by
  constructor
  · have h : (initSched c domains provs).tasks.countP holdsSlot = 0 := by
      rw [List.countP_eq_zero]
      intro t ht
      rcases List.mem_map.mp ht with ⟨d, _, rfl⟩
      simp [processTrace, holdsSlot]
    show c + inFlight (initSched c domains provs) = c
    rw [inFlight, h]
    omega
  · intro t ht
    rcases List.mem_map.mp ht with ⟨d, _, rfl⟩
    exact Or.inr ⟨processWork (provs d), processWork_all_work _, Or.inr rfl⟩

/-- C9: the domain tasks share one counting gate sized by the caller's
concurrency parameter.  In every state reachable from the initial batch
state, at most `concurrency` domain pipelines hold a slot (are between
acquisition and release), and every `process_domain` trace acquires first
and releases on every exit path: it is acquire, then provider calls only,
then one final release. -/
theorem concurrency_gate_bounds_in_flight (c : Nat) (domains : List String)
    (provs : String → Providers) (s : Sched)
    (hreach : Relation.ReflTransGen SchedStep (initSched c domains provs) s) :
    inFlight s ≤ c ∧
      ∀ p : Providers, ∃ mid, (∀ a ∈ mid, a = GateAction.work) ∧
        processTrace p = GateAction.acquire :: (mid ++ [GateAction.release]) := by
  have hinv : SchedInv c s := by
    induction hreach with
    | refl => exact schedInv_init c domains provs
    | tail _ hstep ih => exact schedStep_preserves hstep ih
  refine ⟨?_, fun p => ⟨processWork p, processWork_all_work p, rfl⟩⟩
  have h := hinv.1
  omega

/-- Witness for C9: the initial one-domain batch under a gate of size 1. -/
theorem concurrency_gate_bounds_in_flight_witness :
    inFlight (initSched 1 ["a.example"] (fun _ => provUnavail)) ≤ 1 :=
  (concurrency_gate_bounds_in_flight 1 ["a.example"] (fun _ => provUnavail)
    (initSched 1 ["a.example"] (fun _ => provUnavail)) Relation.ReflTransGen.refl).1

end DomHunter
